import Mathlib

/-!
# Arithmetic in GF(p^2): `FP2.go`

A shallow embedding of `fabric/vendor/github.com/manudrijvers/amcl/go/FP2.go`.

An `FP2` object holds two pointers `a`, `b` to base-field objects (`*FP`).
Every method mutates the objects it is given, and two pointers may name the
same object, so the embedding is a store-passing one:

* a `Store` maps addresses of `FP` objects to the field value they hold and
  records the next free address;
* an `FP2` is a pair of addresses;
* each Go statement becomes one store transformer, in source order.

The base field `FP` is not part of the translated file.  Its objects are
modelled by the field value they represent (an element of a field `K`; the
lazy / reduced representation is below this abstraction, so `norm` and
`reduce` leave every value as it is), and its number-theoretic methods
`jacobi`, `sqrt`, `inverse` and `div2` are taken as a parameter `FPPrims K`.
Its select `cmove` is modelled on values: overwrite on flag `1`, else unchanged.
-/

set_option linter.unusedSectionVars false

namespace Amcl

/-- The store: the value held by every `FP` object (objects are named by their address, a
natural number), and the next free address. -/
structure Store (K : Type) where
  cell : Nat → K
  next : Nat

/-- The number-theoretic methods of the base field `FP`, which `FP2.go` only calls. -/
structure FPPrims (K : Type) where
  jacobi : K → Int
  sqrt : K → K
  inverse : K → K
  div2 : K → K

variable {K : Type}

/-- Overwrite the value of the object at `r`. -/
def Store.set (s : Store K) (r : Nat) (v : K) : Store K :=
  ⟨fun q => if q = r then v else s.cell q, s.next⟩

/-- Allocate a fresh object holding `v`. -/
def Store.alloc (s : Store K) (v : K) : Nat × Store K :=
  (s.next, ⟨fun q => if q = s.next then v else s.cell q, s.next + 1⟩)

/-! ## Base-field methods (`FP`), on values held in the store -/

section BaseField

variable [Field K]

/-- Modelled from the spec: `NewFPint(n)`, a fresh base-field object of value `n`. -/
def NewFPint (n : Int) (s : Store K) : Nat × Store K := s.alloc (n : K)

/-- Modelled from the spec: `NewFPcopy(x)`, a fresh base-field object with the value of `x`. -/
def NewFPcopy (x : Nat) (s : Store K) : Nat × Store K := s.alloc (s.cell x)

/-- Modelled from the spec: `FP.reduce`, a change of representation only. -/
def FP.reduce (_x : Nat) (s : Store K) : Store K := s

/-- Modelled from the spec: `FP.norm`, a change of representation only. -/
def FP.norm (_x : Nat) (s : Store K) : Store K := s

/-- Modelled from the spec: `FP.iszilch`, the zero test of the base field. -/
def FP.iszilch [DecidableEq K] (x : Nat) (s : Store K) : Bool := decide (s.cell x = 0)

/-- Modelled from the spec: `FP.copy`, `x = y`. -/
def FP.copy (x y : Nat) (s : Store K) : Store K := s.set x (s.cell y)

/-- Modelled from the spec: `FP.zero`, `x = 0`. -/
def FP.zero (x : Nat) (s : Store K) : Store K := s.set x 0

/-- Modelled from the spec: `FP.one`, `x = 1`. -/
def FP.one (x : Nat) (s : Store K) : Store K := s.set x 1

/-- Modelled from the spec: `FP.neg`, `x = -x`. -/
def FP.neg (x : Nat) (s : Store K) : Store K := s.set x (-(s.cell x))

/-- Modelled from the spec: `FP.add`, `x += y`. -/
def FP.add (x y : Nat) (s : Store K) : Store K := s.set x (s.cell x + s.cell y)

/-- Modelled from the spec: `FP.sub`, `x -= y`. -/
def FP.sub (x y : Nat) (s : Store K) : Store K := s.set x (s.cell x - s.cell y)

/-- Modelled from the spec: `FP.mul`, `x *= y`. -/
def FP.mul (x y : Nat) (s : Store K) : Store K := s.set x (s.cell x * s.cell y)

/-- Modelled from the spec: `FP.sqr`, `x *= x`. -/
def FP.sqr (x : Nat) (s : Store K) : Store K := s.set x (s.cell x * s.cell x)

/-- Modelled from the spec: `FP.div2`, `x /= 2`. -/
def FP.div2 (P : FPPrims K) (x : Nat) (s : Store K) : Store K := s.set x (P.div2 (s.cell x))

/-- Modelled from the spec: `FP.inverse`, `x = 1/x`. -/
def FP.inverse (P : FPPrims K) (x : Nat) (s : Store K) : Store K :=
  s.set x (P.inverse (s.cell x))

/-- Modelled from the spec: `FP.jacobi`, the Jacobi symbol of `x` over the modulus. -/
def FP.jacobi (P : FPPrims K) (x : Nat) (s : Store K) : Int := P.jacobi (s.cell x)

/-- Modelled from the spec: `FP.sqrt`, which returns a fresh object holding a root of `x`. -/
def FP.sqrt (P : FPPrims K) (x : Nat) (s : Store K) : Nat × Store K :=
  s.alloc (P.sqrt (s.cell x))

/-- Modelled from the spec: `FP.cmove`, the select of the base field: `x` is overwritten with
`g` if the flag `d` is `1`, else `x` is left unchanged. -/
def FP.cmove (x g : Nat) (d : Int) (s : Store K) : Store K :=
  s.set x (if d = 1 then s.cell g else s.cell x)

end BaseField

/-! ## `FP2` -/

/-- The Go `type FP2 struct { a *FP; b *FP }`: two pointers. -/
structure FP2 where
  a : Nat
  b : Nat
deriving DecidableEq

section Methods

variable [Field K]

/-- The Go `NewFP2int`. -/
def NewFP2int (a : Int) (s : Store K) : FP2 × Store K :=
  let (Fa, s) := NewFPint a s
  let (Fb, s) := NewFPint 0 s
  (⟨Fa, Fb⟩, s)

/-- The Go `NewFP2copy`. -/
def NewFP2copy (x : FP2) (s : Store K) : FP2 × Store K :=
  let (Fa, s) := NewFPcopy x.a s
  let (Fb, s) := NewFPcopy x.b s
  (⟨Fa, Fb⟩, s)

/-- The Go `FP2.reduce`. -/
def FP2.reduce (F : FP2) (s : Store K) : Store K :=
  let s := FP.reduce F.a s
  FP.reduce F.b s

/-- The Go `FP2.norm`. -/
def FP2.norm (F : FP2) (s : Store K) : Store K :=
  let s := FP.norm F.a s
  FP.norm F.b s

/-- The Go `FP2.iszilch`. -/
def FP2.iszilch [DecidableEq K] (F : FP2) (s : Store K) : Bool × Store K :=
  let s := F.reduce s
  (FP.iszilch F.a s && FP.iszilch F.b s, s)

/-- The Go `FP2.cmove`. -/
def FP2.cmove (F g : FP2) (d : Int) (s : Store K) : Store K :=
  let s := FP.cmove F.a g.a d s
  FP.cmove F.b g.b d s

/-- The Go `FP2.copy`. -/
def FP2.copy (F x : FP2) (s : Store K) : Store K :=
  let s := FP.copy F.a x.a s
  FP.copy F.b x.b s

/-- The Go `FP2.zero`. -/
def FP2.zero (F : FP2) (s : Store K) : Store K :=
  let s := FP.zero F.a s
  FP.zero F.b s

/-- The Go `FP2.one`. -/
def FP2.one (F : FP2) (s : Store K) : Store K :=
  let s := FP.one F.a s
  FP.zero F.b s

/-- The Go `FP2.neg`. -/
def FP2.neg (F : FP2) (s : Store K) : Store K :=
  let s := F.norm s
  let (m, s) := NewFPcopy F.a s
  let (t, s) := NewFPint 0 s
  let s := FP.add m F.b s
  let s := FP.neg m s
  let s := FP.norm m s
  let s := FP.copy t m s
  let s := FP.add t F.b s
  let s := FP.copy F.b m s
  let s := FP.add F.b F.a s
  FP.copy F.a t s

/-- The Go `FP2.add`. -/
def FP2.add (F x : FP2) (s : Store K) : Store K :=
  let s := FP.add F.a x.a s
  FP.add F.b x.b s

/-- The Go `FP2.sub`. -/
def FP2.sub (F x : FP2) (s : Store K) : Store K :=
  let (m, s) := NewFP2copy x s
  let s := m.neg s
  F.add m s

/-- The Go `FP2.sqr`. -/
def FP2.sqr (F : FP2) (s : Store K) : Store K :=
  let s := F.norm s
  let (w1, s) := NewFPcopy F.a s
  let (w3, s) := NewFPcopy F.a s
  let (mb, s) := NewFPcopy F.b s
  let s := FP.mul w3 F.b s
  let s := FP.add w1 F.b s
  let s := FP.neg mb s
  let s := FP.add F.a mb s
  let s := FP.mul F.a w1 s
  let s := FP.copy F.b w3 s
  let s := FP.add F.b w3 s
  F.norm s

/-- The Go `FP2.mul`. -/
def FP2.mul (F y : FP2) (s : Store K) : Store K :=
  let s := F.norm s
  let (w1, s) := NewFPcopy F.a s
  let (w2, s) := NewFPcopy F.b s
  let (w5, s) := NewFPcopy F.a s
  let (mw, s) := NewFPint 0 s
  let s := FP.mul w1 y.a s
  let s := FP.mul w2 y.b s
  let s := FP.add w5 F.b s
  let s := FP.copy F.b y.a s
  let s := FP.add F.b y.b s
  let s := FP.mul F.b w5 s
  let s := FP.copy mw w1 s
  let s := FP.add mw w2 s
  let s := FP.neg mw s
  let s := FP.add F.b mw s
  let s := FP.add mw w1 s
  let s := FP.copy F.a w1 s
  let s := FP.add F.a mw s
  F.norm s

/-- The tail of the Go `FP2.sqrt` (from `w2 = w2.sqrt()` to `return true`), reached
from both arms of the residue test on `(a + r)/2` and `(a - r)/2`; `b2` is the object
that `w2` points to at that statement. -/
def FP2.sqrtTail (P : FPPrims K) (F : FP2) (b2 : Nat) (s : Store K) : Bool × Store K :=
  let (w2, s) := FP.sqrt P b2 s
  let s := FP.copy F.a w2 s
  let s := FP.add w2 w2 s
  let s := FP.inverse P w2 s
  let s := FP.mul F.b w2 s
  (true, s)

/-- The Go `FP2.sqrt`: the returned flag and the store it leaves. -/
def FP2.sqrt [DecidableEq K] (P : FPPrims K) (F : FP2) (s : Store K) : Bool × Store K :=
  let (z, s) := F.iszilch s
  if z then (true, s)
  else
    let (w1, s) := NewFPcopy F.b s
    let (w2, s) := NewFPcopy F.a s
    let s := FP.sqr w1 s
    let s := FP.sqr w2 s
    let s := FP.add w1 w2 s
    if FP.jacobi P w1 s ≠ 1 then
      let s := F.zero s
      (false, s)
    else
      let (w1, s) := FP.sqrt P w1 s
      let s := FP.copy w2 F.a s
      let s := FP.add w2 w1 s
      let s := FP.div2 P w2 s
      if FP.jacobi P w2 s ≠ 1 then
        let s := FP.copy w2 F.a s
        let s := FP.sub w2 w1 s
        let s := FP.div2 P w2 s
        if FP.jacobi P w2 s ≠ 1 then
          let s := F.zero s
          (false, s)
        else F.sqrtTail P w2 s
      else F.sqrtTail P w2 s

/-- The Go `FP2.inverse`. -/
def FP2.inverse (P : FPPrims K) (F : FP2) (s : Store K) : Store K :=
  let s := F.norm s
  let (w1, s) := NewFPcopy F.a s
  let (w2, s) := NewFPcopy F.b s
  let s := FP.sqr w1 s
  let s := FP.sqr w2 s
  let s := FP.add w1 w2 s
  let s := FP.inverse P w1 s
  let s := FP.mul F.a w1 s
  let s := FP.neg w1 s
  FP.mul F.b w1 s

/-- The Go `FP2.div2`. -/
def FP2.div2 (P : FPPrims K) (F : FP2) (s : Store K) : Store K :=
  let s := FP.div2 P F.a s
  FP.div2 P F.b s

/-- The Go `FP2.times_i`. -/
def FP2.times_i (F : FP2) (s : Store K) : Store K :=
  let (z, s) := NewFPcopy F.a s
  let s := FP.copy F.a F.b s
  let s := FP.neg F.a s
  FP.copy F.b z s

/-- The Go `FP2.mul_ip`. -/
def FP2.mul_ip (F : FP2) (s : Store K) : Store K :=
  let s := F.norm s
  let (t, s) := NewFP2copy F s
  let (z, s) := NewFPcopy F.a s
  let s := FP.copy F.a F.b s
  let s := FP.neg F.a s
  let s := FP.copy F.b z s
  let s := F.add t s
  F.norm s

/-- The Go `FP2.div_ip`. -/
def FP2.div_ip (P : FPPrims K) (F : FP2) (s : Store K) : Store K :=
  let (t, s) := NewFP2int 0 s
  let s := F.norm s
  let s := FP.copy t.a F.a s
  let s := FP.add t.a F.b s
  let s := FP.copy t.b F.b s
  let s := FP.sub t.b F.a s
  let s := F.copy t s
  F.div2 P s

/-- The value on which the Go `FP2.inverse` invokes the base-field `inverse`: the statements
of `FP2.inverse` up to `w1.inverse()`, and the value `w1` holds there. -/
def FP2.inverseArg (F : FP2) (s : Store K) : K :=
  let s := F.norm s
  let (w1, s) := NewFPcopy F.a s
  let (w2, s) := NewFPcopy F.b s
  let s := FP.sqr w1 s
  let s := FP.sqr w2 s
  let s := FP.add w1 w2 s
  s.cell w1

end Methods

/-! ## Reading an `FP2` out of the store -/

/-- The value `(a, b)` of the element `a + i*b` that `F` holds in store `s`. -/
def FP2.val (F : FP2) (s : Store K) : K × K := (s.cell F.a, s.cell F.b)

/-- An object of store `s`: both components are allocated, and they are two objects
(every constructor allocates the two components afresh). -/
def FP2.live (F : FP2) (s : Store K) : Prop := F.a < s.next ∧ F.b < s.next ∧ F.a ≠ F.b

/-- Two `FP2` objects that share no component: distinct objects. -/
def FP2.apart (F y : FP2) : Prop := F.a ≠ y.a ∧ F.a ≠ y.b ∧ F.b ≠ y.a ∧ F.b ≠ y.b

instance (F : FP2) (s : Store K) : Decidable (F.live s) := by
  unfold FP2.live; infer_instance

instance (F y : FP2) : Decidable (F.apart y) := by
  unfold FP2.apart; infer_instance

/-- Modelled from the spec: the contract of the base-field methods that `FP2.go` relies on.
`jacobi` is `1` exactly on the nonzero quadratic residues, `sqrt` returns a root of a residue,
`inverse` inverts a nonzero value, and `div2` halves. -/
structure FPPrims.Lawful [Field K] (P : FPPrims K) : Prop where
  jacobi_iff : ∀ x, P.jacobi x = 1 ↔ (x ≠ 0 ∧ IsSquare x)
  sqrt_mul_self : ∀ x, P.jacobi x = 1 → P.sqrt x * P.sqrt x = x
  inverse_mul : ∀ x, x ≠ 0 → P.inverse x * x = 1
  div2_add : ∀ x, P.div2 x + P.div2 x = x

/-! ## The toy field of the spec, `p = 23` -/

instance fact_prime_23 : Fact (Nat.Prime 23) := ⟨by norm_num⟩

/-- Modelled from the spec: the base-field methods over the toy modulus `p = 23`
(`p = 3 mod 4`): Euler's criterion, the root `x^((p+1)/4)`, the inverse `x^(p-2)`
and halving as multiplication by `(p+1)/2`. -/
def P23 : FPPrims (ZMod 23) :=
  ⟨fun x => if x = 0 then 0 else if x ^ 11 = 1 then 1 else -1,
   fun x => x ^ 6, fun x => x ^ 21, fun x => x * 12⟩

/-- A store over `p = 23` whose first cells hold the listed values (the rest hold `0`). -/
def store23 (vs : List (ZMod 23)) : Store (ZMod 23) := ⟨fun q => vs.getD q 0, vs.length⟩

/-- The value-level reading of `FP2.sqrt` on `x = (a, b)`: the flag it returns and the value
it leaves, with `N = b*b + a*a` and `r = sqrt N` as the code computes them.  It is proved
equal to `FP2.sqrt` on every live object (`sqrt_eq_sqrtVal`). -/
def sqrtVal [Field K] [DecidableEq K] (P : FPPrims K) (x : K × K) : Bool × (K × K) :=
  if x.1 = 0 ∧ x.2 = 0 then (true, x)
  else
    let r := P.sqrt (x.2 * x.2 + x.1 * x.1)
    if P.jacobi (x.2 * x.2 + x.1 * x.1) ≠ 1 then (false, (0, 0))
    else if P.jacobi (P.div2 (x.1 + r)) ≠ 1 then
      if P.jacobi (P.div2 (x.1 - r)) ≠ 1 then (false, (0, 0))
      else (true, (P.sqrt (P.div2 (x.1 - r)),
        x.2 * P.inverse (P.sqrt (P.div2 (x.1 - r)) + P.sqrt (P.div2 (x.1 - r)))))
    else (true, (P.sqrt (P.div2 (x.1 + r)),
        x.2 * P.inverse (P.sqrt (P.div2 (x.1 + r)) + P.sqrt (P.div2 (x.1 + r)))))

/-! ## How each base-field statement changes the store

One lemma per statement for the cell it writes, one for every other cell, and one for
the allocation pointer.  They are the rewrite rules of the symbolic execution used below. -/

section StoreLemmas

variable [Field K]

@[simp]
theorem FP.norm_eq (x : Nat) (s : Store K) : FP.norm x s = s := rfl

@[simp]
theorem FP.reduce_eq (x : Nat) (s : Store K) : FP.reduce x s = s := rfl

@[simp]
theorem FP2.norm_id (F : FP2) (s : Store K) : F.norm s = s := rfl

@[simp]
theorem FP2.reduce_id (F : FP2) (s : Store K) : F.reduce s = s := rfl

@[simp]
theorem FP.copy_next (x y : Nat) (s : Store K) : (FP.copy x y s).next = s.next := rfl

@[simp]
theorem FP.copy_cell_eq (x y q : Nat) (s : Store K) (h : q = x) :
    (FP.copy x y s).cell q = s.cell y := by
  subst h; simp [FP.copy, Store.set]

@[simp]
theorem FP.copy_cell_ne (x y q : Nat) (s : Store K) (h : q ≠ x) :
    (FP.copy x y s).cell q = s.cell q := by
  simp [FP.copy, Store.set, h]

@[simp]
theorem FP.zero_next (x : Nat) (s : Store K) : (FP.zero x s).next = s.next := rfl

@[simp]
theorem FP.zero_cell_eq (x q : Nat) (s : Store K) (h : q = x) :
    (FP.zero x s).cell q = 0 := by
  subst h; simp [FP.zero, Store.set]

@[simp]
theorem FP.zero_cell_ne (x q : Nat) (s : Store K) (h : q ≠ x) :
    (FP.zero x s).cell q = s.cell q := by
  simp [FP.zero, Store.set, h]

@[simp]
theorem FP.one_next (x : Nat) (s : Store K) : (FP.one x s).next = s.next := rfl

@[simp]
theorem FP.one_cell_eq (x q : Nat) (s : Store K) (h : q = x) :
    (FP.one x s).cell q = 1 := by
  subst h; simp [FP.one, Store.set]

@[simp]
theorem FP.one_cell_ne (x q : Nat) (s : Store K) (h : q ≠ x) :
    (FP.one x s).cell q = s.cell q := by
  simp [FP.one, Store.set, h]

@[simp]
theorem FP.neg_next (x : Nat) (s : Store K) : (FP.neg x s).next = s.next := rfl

@[simp]
theorem FP.neg_cell_eq (x q : Nat) (s : Store K) (h : q = x) :
    (FP.neg x s).cell q = -(s.cell x) := by
  subst h; simp [FP.neg, Store.set]

@[simp]
theorem FP.neg_cell_ne (x q : Nat) (s : Store K) (h : q ≠ x) :
    (FP.neg x s).cell q = s.cell q := by
  simp [FP.neg, Store.set, h]

@[simp]
theorem FP.add_next (x y : Nat) (s : Store K) : (FP.add x y s).next = s.next := rfl

@[simp]
theorem FP.add_cell_eq (x y q : Nat) (s : Store K) (h : q = x) :
    (FP.add x y s).cell q = s.cell x + s.cell y := by
  subst h; simp [FP.add, Store.set]

@[simp]
theorem FP.add_cell_ne (x y q : Nat) (s : Store K) (h : q ≠ x) :
    (FP.add x y s).cell q = s.cell q := by
  simp [FP.add, Store.set, h]

@[simp]
theorem FP.sub_next (x y : Nat) (s : Store K) : (FP.sub x y s).next = s.next := rfl

@[simp]
theorem FP.sub_cell_eq (x y q : Nat) (s : Store K) (h : q = x) :
    (FP.sub x y s).cell q = s.cell x - s.cell y := by
  subst h; simp [FP.sub, Store.set]

@[simp]
theorem FP.sub_cell_ne (x y q : Nat) (s : Store K) (h : q ≠ x) :
    (FP.sub x y s).cell q = s.cell q := by
  simp [FP.sub, Store.set, h]

@[simp]
theorem FP.mul_next (x y : Nat) (s : Store K) : (FP.mul x y s).next = s.next := rfl

@[simp]
theorem FP.mul_cell_eq (x y q : Nat) (s : Store K) (h : q = x) :
    (FP.mul x y s).cell q = s.cell x * s.cell y := by
  subst h; simp [FP.mul, Store.set]

@[simp]
theorem FP.mul_cell_ne (x y q : Nat) (s : Store K) (h : q ≠ x) :
    (FP.mul x y s).cell q = s.cell q := by
  simp [FP.mul, Store.set, h]

@[simp]
theorem FP.sqr_next (x : Nat) (s : Store K) : (FP.sqr x s).next = s.next := rfl

@[simp]
theorem FP.sqr_cell_eq (x q : Nat) (s : Store K) (h : q = x) :
    (FP.sqr x s).cell q = s.cell x * s.cell x := by
  subst h; simp [FP.sqr, Store.set]

@[simp]
theorem FP.sqr_cell_ne (x q : Nat) (s : Store K) (h : q ≠ x) :
    (FP.sqr x s).cell q = s.cell q := by
  simp [FP.sqr, Store.set, h]

@[simp]
theorem FP.div2_next (P : FPPrims K) (x : Nat) (s : Store K) : (FP.div2 P x s).next = s.next := rfl

@[simp]
theorem FP.div2_cell_eq (P : FPPrims K) (x q : Nat) (s : Store K) (h : q = x) :
    (FP.div2 P x s).cell q = P.div2 (s.cell x) := by
  subst h; simp [FP.div2, Store.set]

@[simp]
theorem FP.div2_cell_ne (P : FPPrims K) (x q : Nat) (s : Store K) (h : q ≠ x) :
    (FP.div2 P x s).cell q = s.cell q := by
  simp [FP.div2, Store.set, h]

@[simp]
theorem FP.inverse_next (P : FPPrims K) (x : Nat) (s : Store K) : (FP.inverse P x s).next = s.next := rfl

@[simp]
theorem FP.inverse_cell_eq (P : FPPrims K) (x q : Nat) (s : Store K) (h : q = x) :
    (FP.inverse P x s).cell q = P.inverse (s.cell x) := by
  subst h; simp [FP.inverse, Store.set]

@[simp]
theorem FP.inverse_cell_ne (P : FPPrims K) (x q : Nat) (s : Store K) (h : q ≠ x) :
    (FP.inverse P x s).cell q = s.cell q := by
  simp [FP.inverse, Store.set, h]

@[simp]
theorem FP.cmove_next (x g : Nat) (d : Int) (s : Store K) : (FP.cmove x g d s).next = s.next := rfl

@[simp]
theorem FP.cmove_cell_eq (x g q : Nat) (d : Int) (s : Store K) (h : q = x) :
    (FP.cmove x g d s).cell q = if d = 1 then s.cell g else s.cell x := by
  subst h; simp [FP.cmove, Store.set]

@[simp]
theorem FP.cmove_cell_ne (x g q : Nat) (d : Int) (s : Store K) (h : q ≠ x) :
    (FP.cmove x g d s).cell q = s.cell q := by
  simp [FP.cmove, Store.set, h]

@[simp]
theorem NewFPint_fst (n : Int) (s : Store K) : (NewFPint n s).1 = s.next := rfl

@[simp]
theorem NewFPint_next (n : Int) (s : Store K) : (NewFPint n s).2.next = s.next + 1 := rfl

@[simp]
theorem NewFPint_cell_eq (n : Int) (q : Nat) (s : Store K) (h : q = s.next) :
    (NewFPint n s).2.cell q = (n : K) := by
  subst h; simp [NewFPint, Store.alloc]

@[simp]
theorem NewFPint_cell_ne (n : Int) (q : Nat) (s : Store K) (h : q ≠ s.next) :
    (NewFPint n s).2.cell q = s.cell q := by
  simp [NewFPint, Store.alloc, h]

@[simp]
theorem NewFPcopy_fst (x : Nat) (s : Store K) : (NewFPcopy x s).1 = s.next := rfl

@[simp]
theorem NewFPcopy_next (x : Nat) (s : Store K) : (NewFPcopy x s).2.next = s.next + 1 := rfl

@[simp]
theorem NewFPcopy_cell_eq (x : Nat) (q : Nat) (s : Store K) (h : q = s.next) :
    (NewFPcopy x s).2.cell q = s.cell x := by
  subst h; simp [NewFPcopy, Store.alloc]

@[simp]
theorem NewFPcopy_cell_ne (x : Nat) (q : Nat) (s : Store K) (h : q ≠ s.next) :
    (NewFPcopy x s).2.cell q = s.cell q := by
  simp [NewFPcopy, Store.alloc, h]

@[simp]
theorem FP.sqrt_fst (P : FPPrims K) (x : Nat) (s : Store K) : (FP.sqrt P x s).1 = s.next := rfl

@[simp]
theorem FP.sqrt_next (P : FPPrims K) (x : Nat) (s : Store K) : (FP.sqrt P x s).2.next = s.next + 1 := rfl

@[simp]
theorem FP.sqrt_cell_eq (P : FPPrims K) (x : Nat) (q : Nat) (s : Store K) (h : q = s.next) :
    (FP.sqrt P x s).2.cell q = P.sqrt (s.cell x) := by
  subst h; simp [FP.sqrt, Store.alloc]

@[simp]
theorem FP.sqrt_cell_ne (P : FPPrims K) (x : Nat) (q : Nat) (s : Store K) (h : q ≠ s.next) :
    (FP.sqrt P x s).2.cell q = s.cell q := by
  simp [FP.sqrt, Store.alloc, h]

end StoreLemmas


/-! ## Value of an `FP2` after each method -/

section ValueLemmas

variable [Field K]

theorem P23_lawful : P23.Lawful := by
  constructor <;> decide

theorem two_ne_zero_of_div2 {P : FPPrims K} (hd : ∀ x, P.div2 x + P.div2 x = x) :
    (2 : K) ≠ 0 := by
  intro h
  have := hd 1
  rw [← two_mul, h, zero_mul] at this
  exact zero_ne_one this

theorem div2_double {P : FPPrims K} (hd : ∀ x, P.div2 x + P.div2 x = x) (x y : K)
    (h : x = y + y) : P.div2 x = y := by
  have h2 := two_ne_zero_of_div2 hd
  have hx := hd x
  rw [h, ← two_mul, ← two_mul] at hx
  have := mul_left_cancel₀ h2 hx
  rw [← this, h, ← two_mul]

theorem FP2.mul_val (F y : FP2) (s : Store K) (hF : F.live s) (hy : y.live s)
    (hd : F.apart y) :
    F.val (F.mul y s) =
        (s.cell F.a * s.cell y.a - s.cell F.b * s.cell y.b,
         s.cell F.a * s.cell y.b + s.cell F.b * s.cell y.a) := by
  obtain ⟨h1, h2, h3⟩ := hF
  obtain ⟨h4, h5, h6⟩ := hy
  obtain ⟨h7, h8, h9, h10⟩ := hd
  simp (disch := first | omega | (simp; first | done | omega)) [FP2.mul, FP2.val]
  refine ⟨?_, ?_⟩ <;> ring

theorem FP2.sqr_val (F : FP2) (s : Store K) (hF : F.live s) :
    F.val (F.sqr s) =
        (s.cell F.a * s.cell F.a - s.cell F.b * s.cell F.b,
         s.cell F.a * s.cell F.b + s.cell F.a * s.cell F.b) := by
  obtain ⟨h1, h2, h3⟩ := hF
  simp (disch := first | omega | (simp; first | done | omega)) [FP2.sqr, FP2.val]
  ring

theorem FP2.inverse_val (P : FPPrims K) (F : FP2) (s : Store K) (hF : F.live s) :
    F.val (F.inverse P s) =
      (s.cell F.a * P.inverse (s.cell F.a * s.cell F.a + s.cell F.b * s.cell F.b),
       s.cell F.b * -P.inverse (s.cell F.a * s.cell F.a + s.cell F.b * s.cell F.b)) := by
  obtain ⟨h1, h2, h3⟩ := hF
  simp (disch := first | omega | (simp; first | done | omega)) [FP2.inverse, FP2.val]

theorem FP2.mul_ip_val (F : FP2) (s : Store K) (hF : F.live s) :
    F.val (F.mul_ip s) = (s.cell F.a - s.cell F.b, s.cell F.a + s.cell F.b) := by
  obtain ⟨h1, h2, h3⟩ := hF
  simp (disch := first | omega | (simp; first | done | omega))
    [FP2.mul_ip, FP2.val, FP2.add, NewFP2copy]
  ring

/-- In a field where `-1` is not a square, the norm `a*a + b*b` of a nonzero `a + i*b`
is not zero. -/
theorem norm_ne_zero (hm : ¬ IsSquare (-1 : K)) (a b : K) (h : (a, b) ≠ (0, 0)) :
    a * a + b * b ≠ 0 := by
  intro hN
  by_cases hb : b = 0
  · subst hb
    simp at hN
    exact h (by rw [hN])
  · apply hm
    refine ⟨a / b, ?_⟩
    field_simp
    linear_combination -hN

/-- On a live object `FP2.sqrt` returns the flag and leaves the value that `sqrtVal` computes. -/
theorem sqrt_eq_sqrtVal [DecidableEq K] (P : FPPrims K) (F : FP2) (s : Store K)
    (hF : F.live s) :
    ((F.sqrt P s).1, F.val (F.sqrt P s).2) = sqrtVal P (F.val s) := by
  obtain ⟨h1, h2, h3⟩ := hF
  simp only [FP2.sqrt, sqrtVal, FP2.iszilch, FP.iszilch, FP2.val, FP2.reduce_id, FP2.sqrtTail,
    FP2.zero, FP.jacobi, Bool.and_eq_true, decide_eq_true_eq]
  split_ifs <;>
  simp (disch := first | omega | (simp; first | done | omega)) [*] at *

theorem FP2.sqrt_next_le [DecidableEq K] (P : FPPrims K) (F : FP2) (s : Store K) :
    s.next ≤ (F.sqrt P s).2.next := by
  simp only [FP2.sqrt, FP2.iszilch, FP2.reduce_id, FP2.sqrtTail, FP2.zero]
  split_ifs <;> simp <;> omega

theorem FP2.sqrt_live [DecidableEq K] (P : FPPrims K) (F : FP2) (s : Store K)
    (hF : F.live s) : F.live (F.sqrt P s).2 := by
  have := FP2.sqrt_next_le P F s
  obtain ⟨h1, h2, h3⟩ := hF
  exact ⟨by omega, by omega, h3⟩

/-- The algebra behind the last step of `FP2.sqrt`: with `r*r = b*b + a*a`, `2*w = a + r`,
`t*t = w` and `i = 1/(2*t)`, the pair `(t, b*i)` squares to `(a, b)`. -/
theorem sqrt_root_algebra {a b r w t i : K} (h2 : (2 : K) ≠ 0) (hw0 : w ≠ 0)
    (hr : r * r = b * b + a * a) (hw : w + w = a + r) (ht : t * t = w)
    (hi : i * (t + t) = 1) :
    t * t - b * i * (b * i) = a ∧ t * (b * i) + t * (b * i) = b := by
  have ht0 : t ≠ 0 := by
    rintro rfl
    exact hw0 (by rw [← ht, mul_zero])
  have htt : t + t ≠ 0 := by
    rw [← two_mul]
    exact mul_ne_zero h2 ht0
  have hi' : i = (t + t)⁻¹ := eq_inv_of_mul_eq_one_left hi
  subst hi'
  constructor
  · field_simp
    linear_combination (4 * t * t + 4 * w - 4 * a) * ht + (2 * w - a + r) * hw + hr
  · field_simp
    ring

theorem sqrtVal_sound [DecidableEq K] (P : FPPrims K) (hP : P.Lawful) (a b : K)
    (h : (sqrtVal P (a, b)).1 = true) :
    ((sqrtVal P (a, b)).2.1 * (sqrtVal P (a, b)).2.1
        - (sqrtVal P (a, b)).2.2 * (sqrtVal P (a, b)).2.2,
      (sqrtVal P (a, b)).2.1 * (sqrtVal P (a, b)).2.2
        + (sqrtVal P (a, b)).2.1 * (sqrtVal P (a, b)).2.2)
      = (a, b) := by
  have h2 := two_ne_zero_of_div2 hP.div2_add
  unfold sqrtVal at h ⊢
  simp only at h ⊢
  split_ifs at h ⊢ with hz hN hw hw'
  · obtain ⟨rfl, rfl⟩ := hz
    simp
  · have hN1 : P.jacobi (b * b + a * a) = 1 := not_not.mp hN
    have hw1 : P.jacobi (P.div2 (a - P.sqrt (b * b + a * a))) = 1 := not_not.mp hw'
    have hr := hP.sqrt_mul_self _ hN1
    have ht := hP.sqrt_mul_self _ hw1
    have hw0 := ((hP.jacobi_iff _).mp hw1).1
    have ht0 : P.sqrt (P.div2 (a - P.sqrt (b * b + a * a))) ≠ 0 := by
      intro h0
      rw [h0, mul_zero] at ht
      exact hw0 ht.symm
    have htt : P.sqrt (P.div2 (a - P.sqrt (b * b + a * a)))
        + P.sqrt (P.div2 (a - P.sqrt (b * b + a * a))) ≠ 0 := by
      rw [← two_mul]
      exact mul_ne_zero h2 ht0
    have hi := hP.inverse_mul _ htt
    have hd := hP.div2_add (a - P.sqrt (b * b + a * a))
    have hr' : (-P.sqrt (b * b + a * a)) * (-P.sqrt (b * b + a * a)) = b * b + a * a := by
      rw [neg_mul_neg]; exact hr
    have hd' : P.div2 (a - P.sqrt (b * b + a * a)) + P.div2 (a - P.sqrt (b * b + a * a))
        = a + -P.sqrt (b * b + a * a) := by rw [hd]; ring
    obtain ⟨e1, e2⟩ := sqrt_root_algebra h2 hw0 hr' hd' ht hi
    exact Prod.ext e1 e2
  · have hN1 : P.jacobi (b * b + a * a) = 1 := not_not.mp hN
    have hw1 : P.jacobi (P.div2 (a + P.sqrt (b * b + a * a))) = 1 := not_not.mp hw
    have hr := hP.sqrt_mul_self _ hN1
    have ht := hP.sqrt_mul_self _ hw1
    have hw0 := ((hP.jacobi_iff _).mp hw1).1
    have ht0 : P.sqrt (P.div2 (a + P.sqrt (b * b + a * a))) ≠ 0 := by
      intro h0
      rw [h0, mul_zero] at ht
      exact hw0 ht.symm
    have htt : P.sqrt (P.div2 (a + P.sqrt (b * b + a * a)))
        + P.sqrt (P.div2 (a + P.sqrt (b * b + a * a))) ≠ 0 := by
      rw [← two_mul]
      exact mul_ne_zero h2 ht0
    have hi := hP.inverse_mul _ htt
    have hd := hP.div2_add (a + P.sqrt (b * b + a * a))
    obtain ⟨e1, e2⟩ := sqrt_root_algebra h2 hw0 hr hd ht hi
    exact Prod.ext e1 e2

/-- On a real input `a + 0i` with `a` a non-residue of the base field, both candidates
`(a + r)/2` and `(a - r)/2` are `0` or `a`, so `sqrtVal` takes the second failure arm. -/
theorem sqrtVal_real_nonresidue [DecidableEq K] (P : FPPrims K) (hP : P.Lawful) (a : K)
    (ha : ¬ IsSquare a) : (sqrtVal P (a, 0)).1 = false := by
  have h0 : ¬ P.jacobi 0 = 1 := fun h => ((hP.jacobi_iff 0).mp h).1 rfl
  have hj : ¬ P.jacobi a = 1 := fun h => ha ((hP.jacobi_iff a).mp h).2
  unfold sqrtVal
  simp only
  split_ifs with hz hN hw hw'
  · exact absurd ⟨0, by rw [hz.1, mul_zero]⟩ ha
  · rfl
  · rfl
  · exfalso
    have hN1 : P.jacobi ((0 : K) * 0 + a * a) = 1 := not_not.mp hN
    have hr := hP.sqrt_mul_self _ hN1
    have hrr : P.sqrt ((0 : K) * 0 + a * a) = a ∨ P.sqrt ((0 : K) * 0 + a * a) = -a := by
      apply mul_self_eq_mul_self_iff.mp
      rw [hr]; ring
    rcases hrr with e | e
    · rw [e, sub_self, div2_double hP.div2_add 0 0 (by ring)] at hw'
      exact hw' h0
    · rw [e, div2_double hP.div2_add (a - -a) a (by ring)] at hw'
      exact hw' hj
  · exfalso
    have hN1 : P.jacobi ((0 : K) * 0 + a * a) = 1 := not_not.mp hN
    have hr := hP.sqrt_mul_self _ hN1
    have hrr : P.sqrt ((0 : K) * 0 + a * a) = a ∨ P.sqrt ((0 : K) * 0 + a * a) = -a := by
      apply mul_self_eq_mul_self_iff.mp
      rw [hr]; ring
    rcases hrr with e | e
    · rw [e, div2_double hP.div2_add (a + a) a rfl] at hw
      exact hw hj
    · rw [e, div2_double hP.div2_add (a + -a) 0 (by ring)] at hw
      exact hw h0

theorem FP2.neg_val (F : FP2) (s : Store K) (hF : F.live s) :
    F.val (F.neg s) = (-(s.cell F.a), -(s.cell F.b)) := by
  obtain ⟨h1, h2, h3⟩ := hF
  simp (disch := first | omega | (simp; first | done | omega)) [FP2.neg, FP2.val]

theorem FP2.mul_alloc (F y : FP2) (s : Store K) : (F.mul y s).next = s.next + 4 := by
  simp [FP2.mul]

theorem FP2.mul_live (F y G : FP2) (s : Store K) (hG : G.live s) : G.live (F.mul y s) := by
  obtain ⟨h1, h2, h3⟩ := hG
  refine ⟨?_, ?_, h3⟩ <;> rw [FP2.mul_alloc] <;> omega

/-- `F.mul y` leaves every live object that shares no component with `F` as it was. -/
theorem FP2.mul_val_other (F y G : FP2) (s : Store K) (hG : G.live s) (hd : G.apart F) :
    G.val (F.mul y s) = G.val s := by
  obtain ⟨h1, h2, h3⟩ := hG
  obtain ⟨h4, h5, h6, h7⟩ := hd
  simp (disch := first | omega | (simp; first | done | omega)) [FP2.mul, FP2.val]

theorem FP2.add_val (F x : FP2) (s : Store K) (hF : F.live s) (hd : F.apart x) :
    F.val (F.add x s) = (s.cell F.a + s.cell x.a, s.cell F.b + s.cell x.b) := by
  obtain ⟨h1, h2, h3⟩ := hF
  obtain ⟨h4, h5, h6, h7⟩ := hd
  simp (disch := first | omega | (simp; first | done | omega)) [FP2.add, FP2.val]

theorem FP2.add_val_other (F x G : FP2) (s : Store K) (hd : G.apart F) :
    G.val (F.add x s) = G.val s := by
  obtain ⟨h4, h5, h6, h7⟩ := hd
  simp (disch := first | omega | (simp; first | done | omega)) [FP2.add, FP2.val]

theorem FP2.apart_symm {F G : FP2} (h : F.apart G) : G.apart F :=
  ⟨h.1.symm, h.2.2.1.symm, h.2.1.symm, h.2.2.2.symm⟩

/-- On a real input `a + 0i` with `a` a nonzero residue of the base field, `sqrtVal`
returns true whichever root of the norm the base field hands back. -/
theorem sqrtVal_real_residue [DecidableEq K] (P : FPPrims K) (hP : P.Lawful) (a : K)
    (ha0 : a ≠ 0) (ha : IsSquare a) : (sqrtVal P (a, 0)).1 = true := by
  have h0 : ¬ P.jacobi 0 = 1 := fun h => ((hP.jacobi_iff 0).mp h).1 rfl
  have hj : P.jacobi a = 1 := (hP.jacobi_iff a).mpr ⟨ha0, ha⟩
  have hN : P.jacobi ((0 : K) * 0 + a * a) = 1 :=
    (hP.jacobi_iff _).mpr ⟨by simpa using ha0, ⟨a, by ring⟩⟩
  have hr := hP.sqrt_mul_self _ hN
  have hrr : P.sqrt ((0 : K) * 0 + a * a) = a ∨ P.sqrt ((0 : K) * 0 + a * a) = -a := by
    apply mul_self_eq_mul_self_iff.mp
    rw [hr]; ring
  unfold sqrtVal
  simp only
  split_ifs with hz hN' hw hw'
  · rfl
  · exact absurd hN hN'
  · exfalso
    rcases hrr with e | e
    · rw [e, div2_double hP.div2_add (a + a) a rfl] at hw
      exact hw hj
    · rw [e, div2_double hP.div2_add (a - -a) a (by ring)] at hw'
      exact hw' hj
  · rfl
  · rfl

theorem sqrt_sqr_of_true [DecidableEq K] (P : FPPrims K) (hP : P.Lawful) (F : FP2)
    (s : Store K) (hF : F.live s) (hret : (F.sqrt P s).1 = true) :
    F.val (F.sqr (F.sqrt P s).2) = F.val s := by
  have he := sqrt_eq_sqrtVal P F s hF
  have h1 : (F.sqrt P s).1 = (sqrtVal P (F.val s)).1 := congrArg Prod.fst he
  have h2 : F.val (F.sqrt P s).2 = (sqrtVal P (F.val s)).2 := congrArg Prod.snd he
  rw [FP2.sqr_val F _ (FP2.sqrt_live P F s hF)]
  have h3 : (s.cell F.a, s.cell F.b) = F.val s := rfl
  have h4 := sqrtVal_sound P hP (s.cell F.a) (s.cell F.b) (by rw [h3, ← h1]; exact hret)
  rw [h3, ← h2] at h4
  exact h4

/-- In a finite field in which `-1` is not a square, of two elements whose product is
`-(c*c)` with `c ≠ 0` exactly one is a nonzero square. -/
theorem exactly_one_square [Fintype K] [DecidableEq K] (hm : ¬ IsSquare (-1 : K))
    {w w' c : K} (hc : c ≠ 0) (hww : w * w' = -(c * c)) :
    (w ≠ 0 ∧ IsSquare w ∧ ¬ (w' ≠ 0 ∧ IsSquare w')) ∨
    (¬ (w ≠ 0 ∧ IsSquare w) ∧ w' ≠ 0 ∧ IsSquare w') := by
  have hne : w * w' ≠ 0 := by
    rw [hww]
    exact neg_ne_zero.mpr (mul_ne_zero hc hc)
  have hw0 : w ≠ 0 := left_ne_zero_of_mul hne
  have hw0' : w' ≠ 0 := right_ne_zero_of_mul hne
  have hχ : quadraticChar K w * quadraticChar K w' = -1 := by
    rw [← map_mul, hww, ← neg_one_mul, map_mul,
      quadraticChar_neg_one_iff_not_isSquare.mpr hm,
      (quadraticChar_one_iff_isSquare (mul_ne_zero hc hc)).mpr ⟨c, rfl⟩]
    norm_num
  rcases quadraticChar_dichotomy hw0 with h | h
  · left
    refine ⟨hw0, (quadraticChar_one_iff_isSquare hw0).mp h, ?_⟩
    rintro ⟨-, hs⟩
    rw [h, (quadraticChar_one_iff_isSquare hw0').mpr hs] at hχ
    norm_num at hχ
  · right
    refine ⟨?_, hw0', ?_⟩
    · rintro ⟨-, hs⟩
      exact quadraticChar_neg_one_iff_not_isSquare.mp h hs
    · rw [h] at hχ
      apply (quadraticChar_one_iff_isSquare hw0').mp
      linarith

/-- The two candidates `(a + r)/2` and `(a - r)/2` of `FP2.sqrt`, when `b ≠ 0` and the norm
`b*b + a*a` is a residue with root `r`: their product is `-(b*b)/4`, and exactly one of them
has Jacobi symbol `1`. -/
theorem sqrt_candidates [Fintype K] [DecidableEq K] (P : FPPrims K) (hP : P.Lawful)
    (hm : ¬ IsSquare (-1 : K)) (a b : K) (hb : b ≠ 0) (hN : P.jacobi (b * b + a * a) = 1) :
    P.div2 (a + P.sqrt (b * b + a * a)) * P.div2 (a - P.sqrt (b * b + a * a)) * 4
      = -(b * b) ∧
    ((P.jacobi (P.div2 (a + P.sqrt (b * b + a * a))) = 1 ∧
        P.jacobi (P.div2 (a - P.sqrt (b * b + a * a))) ≠ 1) ∨
     (P.jacobi (P.div2 (a + P.sqrt (b * b + a * a))) ≠ 1 ∧
        P.jacobi (P.div2 (a - P.sqrt (b * b + a * a))) = 1)) := by
  have h2 := two_ne_zero_of_div2 hP.div2_add
  have hr := hP.sqrt_mul_self _ hN
  have hw := hP.div2_add (a + P.sqrt (b * b + a * a))
  have hw' := hP.div2_add (a - P.sqrt (b * b + a * a))
  have hc := hP.div2_add b
  have hc0 : P.div2 b ≠ 0 := by
    intro h
    rw [h, add_zero] at hc
    exact hb hc.symm
  have hprod : P.div2 (a + P.sqrt (b * b + a * a)) * P.div2 (a - P.sqrt (b * b + a * a)) * 4
      = -(b * b) := by
    linear_combination
      (P.div2 (a - P.sqrt (b * b + a * a)) + P.div2 (a - P.sqrt (b * b + a * a))) * hw
        + (a + P.sqrt (b * b + a * a)) * hw' - hr
  have hww : P.div2 (a + P.sqrt (b * b + a * a)) * P.div2 (a - P.sqrt (b * b + a * a))
      = -(P.div2 b * P.div2 b) := by
    have h4 : (4 : K) ≠ 0 := by
      have : (4 : K) = 2 * 2 := by norm_num
      rw [this]
      exact mul_ne_zero h2 h2
    apply mul_right_cancel₀ h4
    rw [hprod]
    linear_combination (P.div2 b + P.div2 b + b) * hc
  refine ⟨hprod, ?_⟩
  rcases exactly_one_square hm hc0 hww with ⟨h1, h3, h4⟩ | ⟨h1, h3, h4⟩
  · left
    exact ⟨(hP.jacobi_iff _).mpr ⟨h1, h3⟩, fun h => h4 ((hP.jacobi_iff _).mp h)⟩
  · right
    exact ⟨fun h => h1 ((hP.jacobi_iff _).mp h), (hP.jacobi_iff _).mpr ⟨h3, h4⟩⟩

theorem sqrtVal_flag_iff [Fintype K] [DecidableEq K] (P : FPPrims K) (hP : P.Lawful)
    (hm : ¬ IsSquare (-1 : K)) (a b : K) (hb : b ≠ 0) :
    (sqrtVal P (a, b)).1 = true ↔ P.jacobi (b * b + a * a) = 1 := by
  have hz : ¬ (a = 0 ∧ b = 0) := fun h => hb h.2
  constructor
  · intro h
    by_contra hN
    simp [sqrtVal, hz, hN] at h
  · intro hN
    obtain ⟨-, hc⟩ := sqrt_candidates P hP hm a b hb hN
    rcases hc with ⟨h1, h3⟩ | ⟨h1, h3⟩
    · simp [sqrtVal, hz, hN, h1]
    · simp [sqrtVal, hz, hN, h1, h3]

end ValueLemmas


/-! ## The claims -/

section Claims

variable [Field K]

/-- Claim C1: for `x = a + i*b` and `y = c + i*d` held in distinct objects, `x.mul(y)` leaves
in `x` the pair `(t1 - t2, t3 - t1 - t2)` with `t1 = a*c`, `t2 = b*d`, `t3 = (a+b)*(c+d)`,
and that pair is the schoolbook product `(a*c - b*d, a*d + b*c)`. -/
theorem C1_mul_karatsuba (F y : FP2) (s : Store K) (hF : F.live s) (hy : y.live s)
    (hd : F.apart y) :
    F.val (F.mul y s) =
        (s.cell F.a * s.cell y.a - s.cell F.b * s.cell y.b,
         (s.cell F.a + s.cell F.b) * (s.cell y.a + s.cell y.b)
           - s.cell F.a * s.cell y.a - s.cell F.b * s.cell y.b) ∧
      (s.cell F.a * s.cell y.a - s.cell F.b * s.cell y.b,
         (s.cell F.a + s.cell F.b) * (s.cell y.a + s.cell y.b)
           - s.cell F.a * s.cell y.a - s.cell F.b * s.cell y.b)
        = (s.cell F.a * s.cell y.a - s.cell F.b * s.cell y.b,
           s.cell F.a * s.cell y.b + s.cell F.b * s.cell y.a) := by
  have h : (s.cell F.a + s.cell F.b) * (s.cell y.a + s.cell y.b)
           - s.cell F.a * s.cell y.a - s.cell F.b * s.cell y.b
        = s.cell F.a * s.cell y.b + s.cell F.b * s.cell y.a := by ring
  rw [h]
  exact ⟨FP2.mul_val F y s hF hy hd, rfl⟩

/-- Witness of C1 over `p = 23`: `(7 + 2i) * (4 + 9i) = 10 + 2i`. -/
theorem C1_mul_karatsuba_witness :
    FP2.live ⟨0, 1⟩ (store23 [7, 2, 4, 9]) ∧ FP2.live ⟨2, 3⟩ (store23 [7, 2, 4, 9]) ∧
      FP2.apart ⟨0, 1⟩ ⟨2, 3⟩ ∧
      FP2.val ⟨0, 1⟩ (FP2.mul ⟨0, 1⟩ ⟨2, 3⟩ (store23 [7, 2, 4, 9])) = (10, 2) :=
  ⟨by decide, by decide, by decide,
    (C1_mul_karatsuba ⟨0, 1⟩ ⟨2, 3⟩ (store23 [7, 2, 4, 9])
      (by decide) (by decide) (by decide)).1⟩

/-- Claim C2 as stated fails: over `p = 23`, for `x = 1 + 0i`, `x.sqr()` leaves `1 + 0i`
but `x.mul(x)`, whose operand is the receiver itself, leaves `1 + 1i`. -/
theorem C2_mul_self_counterexample :
    FP2.live ⟨0, 1⟩ (store23 [1, 0]) ∧
    FP2.val ⟨0, 1⟩ (FP2.sqr ⟨0, 1⟩ (store23 [1, 0])) = (1, 0) ∧
    FP2.val ⟨0, 1⟩ (FP2.mul ⟨0, 1⟩ ⟨0, 1⟩ (store23 [1, 0])) = (1, 1) ∧
    FP2.val ⟨0, 1⟩ (FP2.sqr ⟨0, 1⟩ (store23 [1, 0]))
      ≠ FP2.val ⟨0, 1⟩ (FP2.mul ⟨0, 1⟩ ⟨0, 1⟩ (store23 [1, 0])) := by decide

/-- Claim C2, amended: for every element `x` and every operand `y` that is a distinct object
holding the same value as `x` (a copy of `x`), `x.sqr()` leaves the same value in `x` as
`x.mul(y)`. -/
theorem C2_sqr_eq_mul_copy (F y : FP2) (s : Store K) (hF : F.live s) (hy : y.live s)
    (hd : F.apart y) (hv : y.val s = F.val s) :
    F.val (F.sqr s) = F.val (F.mul y s) := by
  rw [FP2.mul_val F y s hF hy hd, FP2.sqr_val F s hF]
  simp only [FP2.val, Prod.mk.injEq] at hv
  rw [hv.1, hv.2]
  refine Prod.ext ?_ ?_ <;> ring

/-- Witness of the amended C2 over `p = 23`, `x = 3 + 5i` and a copy of it. -/
theorem C2_sqr_eq_mul_copy_witness :
    FP2.live ⟨0, 1⟩ (store23 [3, 5, 3, 5]) ∧ FP2.live ⟨2, 3⟩ (store23 [3, 5, 3, 5]) ∧
    FP2.apart ⟨0, 1⟩ ⟨2, 3⟩ ∧
    FP2.val ⟨2, 3⟩ (store23 [3, 5, 3, 5]) = FP2.val ⟨0, 1⟩ (store23 [3, 5, 3, 5]) ∧
    FP2.val ⟨0, 1⟩ (FP2.sqr ⟨0, 1⟩ (store23 [3, 5, 3, 5]))
      = FP2.val ⟨0, 1⟩ (FP2.mul ⟨0, 1⟩ ⟨2, 3⟩ (store23 [3, 5, 3, 5])) :=
  ⟨by decide, by decide, by decide, by decide,
    C2_sqr_eq_mul_copy ⟨0, 1⟩ ⟨2, 3⟩ (store23 [3, 5, 3, 5])
      (by decide) (by decide) (by decide) (by decide)⟩

/-- Claim C3: over a base field in which `-1` is not a square and whose `inverse` inverts
nonzero values, for every nonzero `x = a + i*b` the norm `a*a + b*b` is not zero,
`x.inverse()` leaves `a/(a*a+b*b) - i*b/(a*a+b*b)`, and multiplying `x` by the inverse of
a copy of `x` leaves what `one()` leaves, `1 + 0i`. -/
theorem C3_inverse (P : FPPrims K) (hinv : ∀ x, x ≠ 0 → P.inverse x * x = 1)
    (hm : ¬ IsSquare (-1 : K)) (F : FP2) (s : Store K) (hF : F.live s)
    (hx : F.val s ≠ (0, 0)) :
    s.cell F.a * s.cell F.a + s.cell F.b * s.cell F.b ≠ 0 ∧
    F.val (F.inverse P s) =
      (s.cell F.a / (s.cell F.a * s.cell F.a + s.cell F.b * s.cell F.b),
       -(s.cell F.b / (s.cell F.a * s.cell F.a + s.cell F.b * s.cell F.b))) ∧
    F.val (F.mul (NewFP2copy F s).1 (FP2.inverse P (NewFP2copy F s).1 (NewFP2copy F s).2))
      = F.val (F.one s) ∧
    F.val (F.one s) = (1, 0) := by
  have hN := norm_ne_zero hm _ _ hx
  have hi := hinv _ hN
  have hi' : P.inverse (s.cell F.a * s.cell F.a + s.cell F.b * s.cell F.b)
      = (s.cell F.a * s.cell F.a + s.cell F.b * s.cell F.b)⁻¹ := eq_inv_of_mul_eq_one_left hi
  obtain ⟨h1, h2, h3⟩ := hF
  refine ⟨hN, ?_, ?_, ?_⟩
  · rw [FP2.inverse_val P F s ⟨h1, h2, h3⟩, hi']
    refine Prod.ext ?_ ?_ <;> simp only <;> field_simp
  · simp (disch := first | omega | (simp; first | done | omega))
      [FP2.mul, FP2.val, FP2.inverse, NewFP2copy, FP2.one]
    rw [hi']
    refine ⟨?_, ?_⟩ <;> first | (field_simp; ring) | field_simp
  · simp (disch := first | omega | (simp; first | done | omega)) [FP2.val, FP2.one]

/-- Witness of C3 over `p = 23` (where `-1` is not a square), `x = 3 + 5i`. -/
theorem C3_inverse_witness :
    (∀ x : ZMod 23, x ≠ 0 → P23.inverse x * x = 1) ∧ ¬ IsSquare (-1 : ZMod 23) ∧
    FP2.live ⟨0, 1⟩ (store23 [3, 5]) ∧ FP2.val ⟨0, 1⟩ (store23 [3, 5]) ≠ (0, 0) ∧
    FP2.val ⟨0, 1⟩ (FP2.mul ⟨0, 1⟩ (NewFP2copy ⟨0, 1⟩ (store23 [3, 5])).1
      (FP2.inverse P23 (NewFP2copy ⟨0, 1⟩ (store23 [3, 5])).1
        (NewFP2copy ⟨0, 1⟩ (store23 [3, 5])).2)) = (1, 0) :=
  ⟨by decide, by decide, by decide, by decide,
    ((C3_inverse P23 (by decide) (by decide) ⟨0, 1⟩ (store23 [3, 5])
      (by decide) (by decide)).2.2.1).trans
    (C3_inverse P23 (by decide) (by decide) ⟨0, 1⟩ (store23 [3, 5])
      (by decide) (by decide)).2.2.2⟩

/-- Claim C4: when the base-field methods meet their contract, if `x.sqrt()` returns true
then squaring (with `sqr`) the value it leaves in `x` gives back the value `x` had before
the call; and on the zero element `sqrt` returns true and leaves zero. -/
theorem C4_sqrt_sound [DecidableEq K] (P : FPPrims K) (hP : P.Lawful) (F : FP2)
    (s : Store K) (hF : F.live s) :
    ((F.sqrt P s).1 = true → F.val (F.sqr (F.sqrt P s).2) = F.val s) ∧
    (F.val s = (0, 0) → (F.sqrt P s).1 = true ∧ F.val (F.sqrt P s).2 = (0, 0)) := by
  have he := sqrt_eq_sqrtVal P F s hF
  have h1 : (F.sqrt P s).1 = (sqrtVal P (F.val s)).1 := congrArg Prod.fst he
  have h2 : F.val (F.sqrt P s).2 = (sqrtVal P (F.val s)).2 := congrArg Prod.snd he
  constructor
  · intro hret
    rw [FP2.sqr_val F _ (FP2.sqrt_live P F s hF)]
    have h3 : (s.cell F.a, s.cell F.b) = F.val s := rfl
    have h4 := sqrtVal_sound P hP (s.cell F.a) (s.cell F.b) (by rw [h3, ← h1]; exact hret)
    rw [h3, ← h2] at h4
    exact h4
  · intro hz
    rw [h1, h2, hz]
    simp [sqrtVal]

/-- Witness of C4 over `p = 23`: `sqrt` succeeds on `3 + 4i` and the root squares back;
on `0 + 0i` it returns true and leaves zero. -/
theorem C4_sqrt_sound_witness :
    FP2.live ⟨0, 1⟩ (store23 [3, 4]) ∧ (FP2.sqrt P23 ⟨0, 1⟩ (store23 [3, 4])).1 = true ∧
    FP2.val ⟨0, 1⟩ (FP2.sqr ⟨0, 1⟩ (FP2.sqrt P23 ⟨0, 1⟩ (store23 [3, 4])).2) = (3, 4) ∧
    FP2.live ⟨0, 1⟩ (store23 [0, 0]) ∧ FP2.val ⟨0, 1⟩ (store23 [0, 0]) = (0, 0) ∧
    (FP2.sqrt P23 ⟨0, 1⟩ (store23 [0, 0])).1 = true ∧
    FP2.val ⟨0, 1⟩ (FP2.sqrt P23 ⟨0, 1⟩ (store23 [0, 0])).2 = (0, 0) :=
  ⟨by decide, by decide,
    (C4_sqrt_sound P23 P23_lawful ⟨0, 1⟩ (store23 [3, 4]) (by decide)).1 (by decide),
    by decide, by decide,
    (C4_sqrt_sound P23 P23_lawful ⟨0, 1⟩ (store23 [0, 0]) (by decide)).2 (by decide)⟩

/-- Claim C5 fails on the code: whenever the base-field methods meet their contract, an
element `x = -(t*t) + 0i` whose real part is not a square of the base field is the square
of `0 + i*t` (computed by `sqr`), yet `x.sqrt()` returns false. -/
theorem C5_sqrt_misses_square [DecidableEq K] (P : FPPrims K) (hP : P.Lawful) (F G : FP2)
    (s : Store K) (hF : F.live s) (hG : G.live s) (t : K) (hGv : G.val s = (0, t))
    (hFv : F.val s = (-(t * t), 0)) (hns : ¬ IsSquare (-(t * t))) :
    G.val (G.sqr s) = F.val s ∧ (F.sqrt P s).1 = false := by
  constructor
  · rw [FP2.sqr_val G s hG, hFv]
    simp only [FP2.val, Prod.mk.injEq] at hGv
    rw [hGv.1, hGv.2]
    refine Prod.ext ?_ ?_ <;> simp
  · have he := sqrt_eq_sqrtVal P F s hF
    have h1 : (F.sqrt P s).1 = (sqrtVal P (F.val s)).1 := congrArg Prod.fst he
    rw [h1, hFv]
    exact sqrtVal_real_nonresidue P hP _ hns

/-- The failing input of C5 over `p = 23`: `x = 22 + 0i` is the square of `0 + 1i`, and
`x.sqrt()` returns false. -/
theorem C5_sqrt_misses_square_witness :
    FP2.live ⟨0, 1⟩ (store23 [22, 0, 0, 1]) ∧ FP2.live ⟨2, 3⟩ (store23 [22, 0, 0, 1]) ∧
    ¬ IsSquare (-(1 * 1) : ZMod 23) ∧
    FP2.val ⟨2, 3⟩ (FP2.sqr ⟨2, 3⟩ (store23 [22, 0, 0, 1])) = (22, 0) ∧
    (FP2.sqrt P23 ⟨0, 1⟩ (store23 [22, 0, 0, 1])).1 = false :=
  ⟨by decide, by decide, by decide,
    C5_sqrt_misses_square P23 P23_lawful ⟨0, 1⟩ ⟨2, 3⟩ (store23 [22, 0, 0, 1])
      (by decide) (by decide) 1 (by decide) (by decide) (by decide)⟩

/-- Claim C6: for every nonzero `x = a + i*b` whose norm `a*a + b*b` has Jacobi symbol
other than `1`, `x.sqrt()` returns false; and whenever `sqrt` returns false, on either
failure branch, it leaves the zero element `0 + 0i` in `x`. -/
theorem C6_sqrt_failure [DecidableEq K] (P : FPPrims K) (F : FP2) (s : Store K)
    (hF : F.live s) :
    (F.val s ≠ (0, 0) →
      P.jacobi (s.cell F.a * s.cell F.a + s.cell F.b * s.cell F.b) ≠ 1 →
        (F.sqrt P s).1 = false) ∧
    ((F.sqrt P s).1 = false → F.val (F.sqrt P s).2 = (0, 0)) := by
  have he := sqrt_eq_sqrtVal P F s hF
  have h1 : (F.sqrt P s).1 = (sqrtVal P (F.val s)).1 := congrArg Prod.fst he
  have h2 : F.val (F.sqrt P s).2 = (sqrtVal P (F.val s)).2 := congrArg Prod.snd he
  rw [h1, h2]
  constructor
  · intro hx hj
    rw [add_comm] at hj
    have hz : ¬ (s.cell F.a = 0 ∧ s.cell F.b = 0) := fun h => hx (Prod.ext h.1 h.2)
    simp [sqrtVal, FP2.val, hz, hj]
  · intro hf
    unfold sqrtVal at hf ⊢
    simp only at hf ⊢
    split_ifs at hf ⊢ <;> rfl

/-- Witness of C6 over `p = 23`: `1 + 2i` has norm `5`, a non-residue, so `sqrt` returns
false at the first test and leaves zero; `22 + 0i` has norm `1`, and `sqrt` returns false
at the second test and leaves zero. -/
theorem C6_sqrt_failure_witness :
    FP2.live ⟨0, 1⟩ (store23 [1, 2]) ∧ FP2.val ⟨0, 1⟩ (store23 [1, 2]) ≠ (0, 0) ∧
    P23.jacobi (1 * 1 + 2 * 2) ≠ 1 ∧
    (FP2.sqrt P23 ⟨0, 1⟩ (store23 [1, 2])).1 = false ∧
    FP2.val ⟨0, 1⟩ (FP2.sqrt P23 ⟨0, 1⟩ (store23 [1, 2])).2 = (0, 0) ∧
    P23.jacobi (22 * 22 + 0 * 0) = 1 ∧
    (FP2.sqrt P23 ⟨0, 1⟩ (store23 [22, 0])).1 = false ∧
    FP2.val ⟨0, 1⟩ (FP2.sqrt P23 ⟨0, 1⟩ (store23 [22, 0])).2 = (0, 0) :=
  ⟨by decide, by decide, by decide,
    (C6_sqrt_failure P23 ⟨0, 1⟩ (store23 [1, 2]) (by decide)).1 (by decide) (by decide),
    (C6_sqrt_failure P23 ⟨0, 1⟩ (store23 [1, 2]) (by decide)).2 (by decide),
    by decide, by decide,
    (C6_sqrt_failure P23 ⟨0, 1⟩ (store23 [22, 0]) (by decide)).2 (by decide)⟩

/-- Claim C7: when `2` is invertible (the base-field `div2` halves), `x.mul_ip()` followed
by `x.div_ip()` leaves in `x` the value it had at the start. -/
theorem C7_mul_ip_div_ip (P : FPPrims K) (hd : ∀ x, P.div2 x + P.div2 x = x) (F : FP2)
    (s : Store K) (hF : F.live s) :
    F.val (F.div_ip P (F.mul_ip s)) = F.val s := by
  obtain ⟨h1, h2, h3⟩ := hF
  simp (disch := first | omega | (simp; first | done | omega))
    [FP2.mul_ip, FP2.div_ip, FP2.val, FP2.add, FP2.copy, FP2.div2, NewFP2copy, NewFP2int]
  constructor
  · exact div2_double hd _ _ (by ring)
  · exact div2_double hd _ _ (by ring)

/-- Witness of C7 over `p = 23`, `x = 6 + 15i`. -/
theorem C7_mul_ip_div_ip_witness :
    (∀ x : ZMod 23, P23.div2 x + P23.div2 x = x) ∧ FP2.live ⟨0, 1⟩ (store23 [6, 15]) ∧
    FP2.val ⟨0, 1⟩ (FP2.div_ip P23 ⟨0, 1⟩ (FP2.mul_ip ⟨0, 1⟩ (store23 [6, 15]))) = (6, 15) :=
  ⟨by decide, by decide,
    C7_mul_ip_div_ip P23 (by decide) ⟨0, 1⟩ (store23 [6, 15]) (by decide)⟩

/-- Claim C8: for every `x = a + i*b`, `x.mul_ip()` leaves `(a - b) + i*(a + b)` in `x`, the
same value that `x.mul(y)` leaves for an operand `y` holding `1 + i`. -/
theorem C8_mul_ip (F y : FP2) (s : Store K) (hF : F.live s) (hy : y.live s)
    (hd : F.apart y) (hv : y.val s = (1, 1)) :
    F.val (F.mul_ip s) = (s.cell F.a - s.cell F.b, s.cell F.a + s.cell F.b) ∧
    F.val (F.mul_ip s) = F.val (F.mul y s) := by
  rw [FP2.mul_ip_val F s hF, FP2.mul_val F y s hF hy hd]
  simp only [FP2.val, Prod.mk.injEq] at hv
  rw [hv.1, hv.2]
  simp

/-- Witness of C8 over `p = 23`, `x = 9 + 20i`: both ways leave `12 + 6i`. -/
theorem C8_mul_ip_witness :
    FP2.live ⟨0, 1⟩ (store23 [9, 20, 1, 1]) ∧ FP2.live ⟨2, 3⟩ (store23 [9, 20, 1, 1]) ∧
    FP2.apart ⟨0, 1⟩ ⟨2, 3⟩ ∧ FP2.val ⟨2, 3⟩ (store23 [9, 20, 1, 1]) = (1, 1) ∧
    FP2.val ⟨0, 1⟩ (FP2.mul_ip ⟨0, 1⟩ (store23 [9, 20, 1, 1])) = (12, 6) ∧
    FP2.val ⟨0, 1⟩ (FP2.mul_ip ⟨0, 1⟩ (store23 [9, 20, 1, 1]))
      = FP2.val ⟨0, 1⟩ (FP2.mul ⟨0, 1⟩ ⟨2, 3⟩ (store23 [9, 20, 1, 1])) :=
  ⟨by decide, by decide, by decide, by decide,
    C8_mul_ip ⟨0, 1⟩ ⟨2, 3⟩ (store23 [9, 20, 1, 1])
      (by decide) (by decide) (by decide) (by decide)⟩

/-- Claim C9: for every `x = a + i*b`, `x.times_i()` leaves `-b + i*a`; applied twice it
leaves the value that `x.neg()` leaves, and applied four times the value `x` started with. -/
theorem C9_times_i (F : FP2) (s : Store K) (hF : F.live s) :
    F.val (F.times_i s) = (-(s.cell F.b), s.cell F.a) ∧
    F.val (F.times_i (F.times_i s)) = F.val (F.neg s) ∧
    F.val (F.times_i (F.times_i (F.times_i (F.times_i s)))) = F.val s := by
  obtain ⟨h1, h2, h3⟩ := hF
  refine ⟨?_, ?_, ?_⟩
  · simp (disch := first | omega | (simp; first | done | omega)) [FP2.times_i, FP2.val]
  · simp (disch := first | omega | (simp; first | done | omega))
      [FP2.times_i, FP2.val, FP2.neg]
  · simp (disch := first | omega | (simp; first | done | omega)) [FP2.times_i, FP2.val]

/-- Witness of C9 over `p = 23`, `x = 8 + 3i`. -/
theorem C9_times_i_witness :
    FP2.live ⟨0, 1⟩ (store23 [8, 3]) ∧
    FP2.val ⟨0, 1⟩ (FP2.times_i ⟨0, 1⟩ (store23 [8, 3])) = (20, 8) ∧
    FP2.val ⟨0, 1⟩ (FP2.times_i ⟨0, 1⟩ (FP2.times_i ⟨0, 1⟩ (store23 [8, 3])))
      = FP2.val ⟨0, 1⟩ (FP2.neg ⟨0, 1⟩ (store23 [8, 3])) ∧
    FP2.val ⟨0, 1⟩ (FP2.times_i ⟨0, 1⟩ (FP2.times_i ⟨0, 1⟩ (FP2.times_i ⟨0, 1⟩
      (FP2.times_i ⟨0, 1⟩ (store23 [8, 3]))))) = (8, 3) :=
  ⟨by decide, C9_times_i ⟨0, 1⟩ (store23 [8, 3]) (by decide)⟩

/-- Claim C10 as stated fails: with `p = 23`, `x = 3 + 5i` and `y = 2 + 1i` in distinct
objects, `x.mul(y)` does not leave `1 + 18i`, and `1 + 18i` is not the modular expansion
`(3*2 - 5*1) + i*(3*1 + 5*2)` either. -/
theorem C10_mul_concrete_counterexample :
    FP2.live ⟨0, 1⟩ (store23 [3, 5, 2, 1]) ∧ FP2.live ⟨2, 3⟩ (store23 [3, 5, 2, 1]) ∧
    FP2.apart ⟨0, 1⟩ ⟨2, 3⟩ ∧
    FP2.val ⟨0, 1⟩ (FP2.mul ⟨0, 1⟩ ⟨2, 3⟩ (store23 [3, 5, 2, 1])) ≠ (1, 18) ∧
    ((3 * 2 - 5 * 1 : ZMod 23), (3 * 1 + 5 * 2 : ZMod 23)) ≠ (1, 18) := by decide

/-- Claim C10, amended: with `p = 23`, `x = 3 + 5i` and `y = 2 + 1i`, `x.mul(y)` leaves
`1 + 13i`, the direct modular expansion `(3*2 - 5*1) + i*(3*1 + 5*2) mod 23`. -/
theorem C10_mul_concrete :
    FP2.val ⟨0, 1⟩ (FP2.mul ⟨0, 1⟩ ⟨2, 3⟩ (store23 [3, 5, 2, 1])) = (1, 13) ∧
    ((3 * 2 - 5 * 1 : ZMod 23), (3 * 1 + 5 * 2 : ZMod 23)) = (1, 13) := by decide

/-- Claim C11: for `x = a + i*b` and `y = c + i*d`, `x.sub(y)` leaves `(a - c) + i*(b - d)` in
`x`; it is `add` applied to `x` with the negated copy of `y`; it leaves the value of a
distinct `y` unchanged; and with the receiver itself as operand, `x.sub(x)` leaves zero. -/
theorem C11_sub (F y : FP2) (s : Store K) (hF : F.live s) (hy : y.live s)
    (hd : F.apart y ∨ y = F) :
    F.val (F.sub y s) = (s.cell F.a - s.cell y.a, s.cell F.b - s.cell y.b) ∧
    F.sub y s = F.add (NewFP2copy y s).1 (FP2.neg (NewFP2copy y s).1 (NewFP2copy y s).2) ∧
    (F.apart y → y.val (F.sub y s) = y.val s) ∧
    F.val (F.sub F s) = (0, 0) := by
  obtain ⟨h1, h2, h3⟩ := hF
  obtain ⟨h4, h5, h6⟩ := hy
  refine ⟨?_, rfl, ?_, ?_⟩
  · rcases hd with ⟨h7, h8, h9, h10⟩ | rfl
    · simp (disch := first | omega | (simp; first | done | omega))
        [FP2.sub, FP2.val, FP2.neg, FP2.add, NewFP2copy]
      refine ⟨?_, ?_⟩ <;> ring
    · simp (disch := first | omega | (simp; first | done | omega))
        [FP2.sub, FP2.val, FP2.neg, FP2.add, NewFP2copy]
  · rintro ⟨h7, h8, h9, h10⟩
    simp (disch := first | omega | (simp; first | done | omega))
      [FP2.sub, FP2.val, FP2.neg, FP2.add, NewFP2copy]
  · simp (disch := first | omega | (simp; first | done | omega))
      [FP2.sub, FP2.val, FP2.neg, FP2.add, NewFP2copy]

/-- Witness of C11 over `p = 23`: `(9 + 4i) - (5 + 11i) = 4 + 16i`, the operand keeps
`5 + 11i`, and `x.sub(x)` leaves zero. -/
theorem C11_sub_witness :
    FP2.live ⟨0, 1⟩ (store23 [9, 4, 5, 11]) ∧ FP2.live ⟨2, 3⟩ (store23 [9, 4, 5, 11]) ∧
    FP2.apart ⟨0, 1⟩ ⟨2, 3⟩ ∧
    FP2.val ⟨0, 1⟩ (FP2.sub ⟨0, 1⟩ ⟨2, 3⟩ (store23 [9, 4, 5, 11])) = (4, 16) ∧
    FP2.val ⟨2, 3⟩ (FP2.sub ⟨0, 1⟩ ⟨2, 3⟩ (store23 [9, 4, 5, 11])) = (5, 11) ∧
    FP2.val ⟨0, 1⟩ (FP2.sub ⟨0, 1⟩ ⟨0, 1⟩ (store23 [9, 4, 5, 11])) = (0, 0) :=
  ⟨by decide, by decide, by decide,
    (C11_sub ⟨0, 1⟩ ⟨2, 3⟩ (store23 [9, 4, 5, 11]) (by decide) (by decide)
      (Or.inl (by decide))).1,
    (C11_sub ⟨0, 1⟩ ⟨2, 3⟩ (store23 [9, 4, 5, 11]) (by decide) (by decide)
      (Or.inl (by decide))).2.2.1 (by decide),
    (C11_sub ⟨0, 1⟩ ⟨0, 1⟩ (store23 [9, 4, 5, 11]) (by decide) (by decide)
      (Or.inr rfl)).2.2.2⟩

/-- Claim C12: for `x = a + i*b`, `x.neg()` leaves `(-a) + i*(-b)`: the accumulation
`m = -(a+b)`, `real' = m + b`, `imag' = m + a` is exactly that pair, so adding to `x` the
negated copy of `x` leaves the zero element. -/
theorem C12_neg (F : FP2) (s : Store K) (hF : F.live s) :
    F.val (F.neg s) = (-(s.cell F.a), -(s.cell F.b)) ∧
    (-(s.cell F.a + s.cell F.b) + s.cell F.b, -(s.cell F.a + s.cell F.b) + s.cell F.a)
      = (-(s.cell F.a), -(s.cell F.b)) ∧
    F.val (F.add (NewFP2copy F s).1 (FP2.neg (NewFP2copy F s).1 (NewFP2copy F s).2))
      = (0, 0) := by
  refine ⟨FP2.neg_val F s hF, ?_, ?_⟩
  · refine Prod.ext ?_ ?_ <;> simp only <;> ring
  · obtain ⟨h1, h2, h3⟩ := hF
    simp (disch := first | omega | (simp; first | done | omega))
      [FP2.val, FP2.neg, FP2.add, NewFP2copy]

/-- Witness of C12 over `p = 23`: `-(9 + 4i) = 14 + 19i`. -/
theorem C12_neg_witness :
    FP2.live ⟨0, 1⟩ (store23 [9, 4]) ∧
    FP2.val ⟨0, 1⟩ (FP2.neg ⟨0, 1⟩ (store23 [9, 4])) = (14, 19) ∧
    FP2.val ⟨0, 1⟩ (FP2.add ⟨0, 1⟩ (NewFP2copy ⟨0, 1⟩ (store23 [9, 4])).1
      (FP2.neg (NewFP2copy ⟨0, 1⟩ (store23 [9, 4])).1
        (NewFP2copy ⟨0, 1⟩ (store23 [9, 4])).2)) = (0, 0) :=
  ⟨by decide, (C12_neg ⟨0, 1⟩ (store23 [9, 4]) (by decide)).1,
    (C12_neg ⟨0, 1⟩ (store23 [9, 4]) (by decide)).2.2⟩

/-- Claim C13: for every pair of elements `x` and `g`, `x.cmove(g, 1)` leaves both components
of `x` equal to those of `g`, `x.cmove(g, 0)` leaves both components of `x` unchanged, and
`g` is unchanged in both cases. -/
theorem C13_cmove (F g : FP2) (s : Store K) (hF : F.live s) (hg : g.live s)
    (hd : F.apart g ∨ g = F) :
    F.val (F.cmove g 1 s) = g.val s ∧ g.val (F.cmove g 1 s) = g.val s ∧
    F.val (F.cmove g 0 s) = F.val s ∧ g.val (F.cmove g 0 s) = g.val s := by
  obtain ⟨h1, h2, h3⟩ := hF
  obtain ⟨h4, h5, h6⟩ := hg
  rcases hd with ⟨h7, h8, h9, h10⟩ | rfl
  · simp (disch := first | omega | (simp; first | done | omega)) [FP2.cmove, FP2.val]
  · simp (disch := first | omega | (simp; first | done | omega)) [FP2.cmove, FP2.val]

/-- Witness of C13 over `p = 23`, `x = 9 + 4i` and `g = 5 + 11i`. -/
theorem C13_cmove_witness :
    FP2.live ⟨0, 1⟩ (store23 [9, 4, 5, 11]) ∧ FP2.live ⟨2, 3⟩ (store23 [9, 4, 5, 11]) ∧
    FP2.apart ⟨0, 1⟩ ⟨2, 3⟩ ∧
    FP2.val ⟨0, 1⟩ (FP2.cmove ⟨0, 1⟩ ⟨2, 3⟩ 1 (store23 [9, 4, 5, 11])) = (5, 11) ∧
    FP2.val ⟨2, 3⟩ (FP2.cmove ⟨0, 1⟩ ⟨2, 3⟩ 1 (store23 [9, 4, 5, 11])) = (5, 11) ∧
    FP2.val ⟨0, 1⟩ (FP2.cmove ⟨0, 1⟩ ⟨2, 3⟩ 0 (store23 [9, 4, 5, 11])) = (9, 4) ∧
    FP2.val ⟨2, 3⟩ (FP2.cmove ⟨0, 1⟩ ⟨2, 3⟩ 0 (store23 [9, 4, 5, 11])) = (5, 11) :=
  ⟨by decide, by decide, by decide,
    C13_cmove ⟨0, 1⟩ ⟨2, 3⟩ (store23 [9, 4, 5, 11]) (by decide) (by decide)
      (Or.inl (by decide))⟩

/-- Claim C15 as stated fails: on the zero element `0 + 0i` (over `p = 23`) the value on
which `FP2.inverse` invokes the base-field `inverse` is the zero norm `0`. -/
theorem C15_inverse_zero_counterexample :
    FP2.live ⟨0, 1⟩ (store23 [0, 0]) ∧ FP2.val ⟨0, 1⟩ (store23 [0, 0]) = (0, 0) ∧
    FP2.inverseArg ⟨0, 1⟩ (store23 [0, 0]) = 0 := by decide

/-- Claim C15, amended: `inverse` has no guard for the zero element: on `0 + 0i` it invokes
the base-field `inverse` on the zero norm, and leaves in `x` the components `0 * v` and
`0 * (-v)` for the value `v` that call returns, which is the zero element for every `v`. -/
theorem C15_inverse_zero (P : FPPrims K) (F : FP2) (s : Store K) (hF : F.live s)
    (hz : F.val s = (0, 0)) :
    F.inverseArg s = 0 ∧ F.val (F.inverse P s) = (0 * P.inverse 0, 0 * -P.inverse 0) ∧
    F.val (F.inverse P s) = (0, 0) := by
  obtain ⟨h1, h2, h3⟩ := hF
  simp only [FP2.val, Prod.mk.injEq] at hz
  obtain ⟨ha, hb⟩ := hz
  refine ⟨?_, ?_, ?_⟩
  · simp (disch := first | omega | (simp; first | done | omega)) [FP2.inverseArg, ha, hb]
  · simp (disch := first | omega | (simp; first | done | omega))
      [FP2.inverse, FP2.val, ha, hb]
  · simp (disch := first | omega | (simp; first | done | omega))
      [FP2.inverse, FP2.val, ha, hb]

/-- Witness of the amended C15 over `p = 23`. -/
theorem C15_inverse_zero_witness :
    FP2.live ⟨0, 1⟩ (store23 [0, 0]) ∧ FP2.val ⟨0, 1⟩ (store23 [0, 0]) = (0, 0) ∧
    FP2.inverseArg ⟨0, 1⟩ (store23 [0, 0]) = 0 ∧
    FP2.val ⟨0, 1⟩ (FP2.inverse P23 ⟨0, 1⟩ (store23 [0, 0])) = (0, 0) :=
  ⟨by decide, by decide,
    (C15_inverse_zero P23 ⟨0, 1⟩ (store23 [0, 0]) (by decide) (by decide)).1,
    (C15_inverse_zero P23 ⟨0, 1⟩ (store23 [0, 0]) (by decide) (by decide)).2.2⟩

/-- Claim C16: for elements `x`, `y`, `z` in distinct objects (and a copy `x2` of `x` for the
second product), `mul` distributes over `add`: `x.mul(y)` after `y.add(z)` leaves in `x` the
same value as `x.mul(y)`, `x2.mul(z)` and then `x.add(x2)`. -/
theorem C16_mul_add_distrib (F F2 y z : FP2) (s : Store K) (hF : F.live s)
    (hF2 : F2.live s) (hy : y.live s) (hz : z.live s) (h1 : F.apart F2) (h2 : F.apart y)
    (h3 : F.apart z) (h5 : F2.apart z) (h6 : y.apart z) (hv : F2.val s = F.val s) :
    F.val (F.mul y (y.add z s)) = F.val (F.add F2 (F2.mul z (F.mul y s))) := by
  -- left: y += z, then F *= y
  have l1 := FP2.add_val y z s hy h6
  have l2 := FP2.add_val_other y z F s h2
  have l3 := FP2.mul_val F y (y.add z s) hF hy h2
  -- right: F *= y, F2 *= z, F += F2
  have r1 := FP2.mul_val F y s hF hy h2
  have r2 := FP2.mul_val_other F y F2 s hF2 (FP2.apart_symm h1)
  have r3 := FP2.mul_val_other F y z s hz (FP2.apart_symm h3)
  have r4 := FP2.mul_val F2 z (F.mul y s) (FP2.mul_live F y F2 s hF2)
    (FP2.mul_live F y z s hz) h5
  have r5 := FP2.mul_val_other F2 z F (F.mul y s) (FP2.mul_live F y F s hF) h1
  have r6 := FP2.add_val F F2 (F2.mul z (F.mul y s))
    (FP2.mul_live F2 z F _ (FP2.mul_live F y F s hF)) h1
  simp only [FP2.val, Prod.mk.injEq] at l1 l2 l3 r1 r2 r3 r4 r5 r6 hv ⊢
  rw [l3.1, l3.2, l1.1, l1.2, l2.1, l2.2, r6.1, r6.2, r5.1, r5.2, r4.1, r4.2, r3.1, r3.2,
    r2.1, r2.2, r1.1, r1.2, hv.1, hv.2]
  refine ⟨?_, ?_⟩ <;> ring

/-- Witness of C16 over `p = 23`: `x = 3 + 5i`, `y = 2 + 1i`, `z = 7 + 8i`; both sides
leave `5 + 3i`. -/
theorem C16_mul_add_distrib_witness :
    FP2.live ⟨0, 1⟩ (store23 [3, 5, 3, 5, 2, 1, 7, 8]) ∧
    FP2.live ⟨2, 3⟩ (store23 [3, 5, 3, 5, 2, 1, 7, 8]) ∧
    FP2.live ⟨4, 5⟩ (store23 [3, 5, 3, 5, 2, 1, 7, 8]) ∧
    FP2.live ⟨6, 7⟩ (store23 [3, 5, 3, 5, 2, 1, 7, 8]) ∧
    FP2.apart ⟨0, 1⟩ ⟨2, 3⟩ ∧ FP2.apart ⟨0, 1⟩ ⟨4, 5⟩ ∧ FP2.apart ⟨0, 1⟩ ⟨6, 7⟩ ∧
    FP2.apart ⟨2, 3⟩ ⟨6, 7⟩ ∧ FP2.apart ⟨4, 5⟩ ⟨6, 7⟩ ∧
    FP2.val ⟨2, 3⟩ (store23 [3, 5, 3, 5, 2, 1, 7, 8])
      = FP2.val ⟨0, 1⟩ (store23 [3, 5, 3, 5, 2, 1, 7, 8]) ∧
    FP2.val ⟨0, 1⟩ (FP2.mul ⟨0, 1⟩ ⟨4, 5⟩
      (FP2.add ⟨4, 5⟩ ⟨6, 7⟩ (store23 [3, 5, 3, 5, 2, 1, 7, 8]))) = (5, 3) ∧
    FP2.val ⟨0, 1⟩ (FP2.mul ⟨0, 1⟩ ⟨4, 5⟩
      (FP2.add ⟨4, 5⟩ ⟨6, 7⟩ (store23 [3, 5, 3, 5, 2, 1, 7, 8])))
      = FP2.val ⟨0, 1⟩ (FP2.add ⟨0, 1⟩ ⟨2, 3⟩ (FP2.mul ⟨2, 3⟩ ⟨6, 7⟩
          (FP2.mul ⟨0, 1⟩ ⟨4, 5⟩ (store23 [3, 5, 3, 5, 2, 1, 7, 8])))) :=
  ⟨by decide, by decide, by decide, by decide, by decide, by decide, by decide, by decide,
    by decide, by decide, by decide,
    C16_mul_add_distrib ⟨0, 1⟩ ⟨2, 3⟩ ⟨4, 5⟩ ⟨6, 7⟩ (store23 [3, 5, 3, 5, 2, 1, 7, 8])
      (by decide) (by decide) (by decide) (by decide) (by decide) (by decide) (by decide)
      (by decide) (by decide) (by decide)⟩

/-- Claim C17: for elements `x`, `y`, `z` in distinct objects, `mul` is commutative and
associative: `x.mul(y)` leaves in `x` the value that `y.mul(x)` leaves in `y`, and
`x.mul(y)` then `x.mul(z)` leaves in `x` the value that `y.mul(z)` then `x.mul(y)` leaves. -/
theorem C17_mul_comm_assoc (F y z : FP2) (s : Store K) (hF : F.live s)
    (hy : y.live s) (hz : z.live s) (h2 : F.apart y) (h3 : F.apart z) (h6 : y.apart z) :
    F.val (F.mul y s) = y.val (y.mul F s) ∧
    F.val (F.mul z (F.mul y s)) = F.val (F.mul y (y.mul z s)) := by
  constructor
  · rw [FP2.mul_val F y s hF hy h2, FP2.mul_val y F s hy hF (FP2.apart_symm h2)]
    refine Prod.ext ?_ ?_ <;> simp only <;> ring
  · -- left: F *= y, then F *= z
    have l1 := FP2.mul_val F y s hF hy h2
    have l2 := FP2.mul_val_other F y z s hz (FP2.apart_symm h3)
    have l3 := FP2.mul_val F z (F.mul y s) (FP2.mul_live F y F s hF)
      (FP2.mul_live F y z s hz) h3
    -- right: y *= z, then F *= y
    have r1 := FP2.mul_val y z s hy hz h6
    have r2 := FP2.mul_val_other y z F s hF h2
    have r3 := FP2.mul_val F y (y.mul z s) (FP2.mul_live y z F s hF)
      (FP2.mul_live y z y s hy) h2
    simp only [FP2.val, Prod.mk.injEq] at l1 l2 l3 r1 r2 r3 ⊢
    rw [l3.1, l3.2, l2.1, l2.2, l1.1, l1.2, r3.1, r3.2, r2.1, r2.2, r1.1, r1.2]
    refine ⟨?_, ?_⟩ <;> ring

/-- Witness of C17 over `p = 23`: `x = 3 + 5i`, `y = 2 + 1i`, `z = 7 + 8i`. -/
theorem C17_mul_comm_assoc_witness :
    FP2.live ⟨0, 1⟩ (store23 [3, 5, 2, 1, 7, 8]) ∧
    FP2.live ⟨2, 3⟩ (store23 [3, 5, 2, 1, 7, 8]) ∧
    FP2.live ⟨4, 5⟩ (store23 [3, 5, 2, 1, 7, 8]) ∧
    FP2.apart ⟨0, 1⟩ ⟨2, 3⟩ ∧ FP2.apart ⟨0, 1⟩ ⟨4, 5⟩ ∧ FP2.apart ⟨2, 3⟩ ⟨4, 5⟩ ∧
    FP2.val ⟨0, 1⟩ (FP2.mul ⟨0, 1⟩ ⟨2, 3⟩ (store23 [3, 5, 2, 1, 7, 8]))
      = FP2.val ⟨2, 3⟩ (FP2.mul ⟨2, 3⟩ ⟨0, 1⟩ (store23 [3, 5, 2, 1, 7, 8])) ∧
    FP2.val ⟨0, 1⟩ (FP2.mul ⟨0, 1⟩ ⟨4, 5⟩
        (FP2.mul ⟨0, 1⟩ ⟨2, 3⟩ (store23 [3, 5, 2, 1, 7, 8])))
      = FP2.val ⟨0, 1⟩ (FP2.mul ⟨0, 1⟩ ⟨2, 3⟩
        (FP2.mul ⟨2, 3⟩ ⟨4, 5⟩ (store23 [3, 5, 2, 1, 7, 8]))) :=
  ⟨by decide, by decide, by decide, by decide, by decide, by decide,
    C17_mul_comm_assoc ⟨0, 1⟩ ⟨2, 3⟩ ⟨4, 5⟩ (store23 [3, 5, 2, 1, 7, 8])
      (by decide) (by decide) (by decide) (by decide) (by decide) (by decide)⟩

/-- Claim C18: with `p = 23` and `x = 4 + 0i`, whatever base-field methods meeting their
contract are used (so whichever root of the norm `16` the base field returns), `x.sqrt()`
returns true and the value it leaves squares with `sqr` to `4 + 0i`. -/
theorem C18_sqrt_four (P : FPPrims (ZMod 23)) (hP : P.Lawful) :
    (FP2.sqrt P ⟨0, 1⟩ (store23 [4, 0])).1 = true ∧
    FP2.val ⟨0, 1⟩ (FP2.sqr ⟨0, 1⟩ (FP2.sqrt P ⟨0, 1⟩ (store23 [4, 0])).2) = (4, 0) := by
  have hl : FP2.live ⟨0, 1⟩ (store23 [4, 0]) := by decide
  have he := sqrt_eq_sqrtVal P ⟨0, 1⟩ (store23 [4, 0]) hl
  have h1 : (FP2.sqrt P ⟨0, 1⟩ (store23 [4, 0])).1
      = (sqrtVal P (FP2.val ⟨0, 1⟩ (store23 [4, 0]))).1 := congrArg Prod.fst he
  have hv : FP2.val ⟨0, 1⟩ (store23 [4, 0]) = (4, 0) := by decide
  have ht : (FP2.sqrt P ⟨0, 1⟩ (store23 [4, 0])).1 = true := by
    rw [h1, hv]
    exact sqrtVal_real_residue P hP 4 (by decide) ⟨2, by decide⟩
  exact ⟨ht, (sqrt_sqr_of_true P hP ⟨0, 1⟩ (store23 [4, 0]) hl ht).trans hv⟩

/-- Witness of C18 with the methods `P23`: the root left is `2 + 0i`. -/
theorem C18_sqrt_four_witness :
    P23.Lawful ∧ (FP2.sqrt P23 ⟨0, 1⟩ (store23 [4, 0])).1 = true ∧
    FP2.val ⟨0, 1⟩ (FP2.sqrt P23 ⟨0, 1⟩ (store23 [4, 0])).2 = (2, 0) ∧
    FP2.val ⟨0, 1⟩ (FP2.sqr ⟨0, 1⟩ (FP2.sqrt P23 ⟨0, 1⟩ (store23 [4, 0])).2) = (4, 0) :=
  ⟨P23_lawful, (C18_sqrt_four P23 P23_lawful).1, by decide, (C18_sqrt_four P23 P23_lawful).2⟩

/-- Claim C19: `mul` is not alias-safe: for `x = a + i*b`, the call `x.mul(x)` leaves
`(a*a - b*b) + i*(a*a + 2*a*b - b*b)`; the real part agrees with what `x.sqr()` leaves, and
the imaginary part agrees with the `2*a*b` of `sqr` exactly when `a*a = b*b`. -/
theorem C19_mul_alias (F : FP2) (s : Store K) (hF : F.live s) :
    F.val (F.mul F s) =
      (s.cell F.a * s.cell F.a - s.cell F.b * s.cell F.b,
       s.cell F.a * s.cell F.a + 2 * s.cell F.a * s.cell F.b - s.cell F.b * s.cell F.b) ∧
    (F.val (F.mul F s)).1 = (F.val (F.sqr s)).1 ∧
    (F.val (F.sqr s)).2 = 2 * s.cell F.a * s.cell F.b ∧
    ((F.val (F.mul F s)).2 = (F.val (F.sqr s)).2
      ↔ s.cell F.a * s.cell F.a = s.cell F.b * s.cell F.b) := by
  have hm : F.val (F.mul F s) =
      (s.cell F.a * s.cell F.a - s.cell F.b * s.cell F.b,
       s.cell F.a * s.cell F.a + 2 * s.cell F.a * s.cell F.b - s.cell F.b * s.cell F.b) := by
    obtain ⟨h1, h2, h3⟩ := hF
    simp (disch := first | omega | (simp; first | done | omega)) [FP2.mul, FP2.val]
    refine ⟨?_, ?_⟩ <;> ring
  rw [hm, FP2.sqr_val F s hF]
  refine ⟨rfl, rfl, by ring, ?_⟩
  constructor
  · intro h
    simp only at h
    linear_combination h
  · intro h
    simp only
    linear_combination h

/-- Witness of C19 over `p = 23`, `x = 3 + 5i`: `x.mul(x)` leaves `7 + 14i`, `x.sqr()`
leaves `7 + 7i`. -/
theorem C19_mul_alias_witness :
    FP2.live ⟨0, 1⟩ (store23 [3, 5]) ∧
    FP2.val ⟨0, 1⟩ (FP2.mul ⟨0, 1⟩ ⟨0, 1⟩ (store23 [3, 5])) = (7, 14) ∧
    FP2.val ⟨0, 1⟩ (FP2.sqr ⟨0, 1⟩ (store23 [3, 5])) = (7, 7) :=
  ⟨by decide, (C19_mul_alias ⟨0, 1⟩ (store23 [3, 5]) (by decide)).1, by decide⟩

/-- Claim C20: over a prime base field with `p = 3 mod 4` whose methods meet their contract,
for `x = a + i*b` with `b ≠ 0`: if the norm `N = a*a + b*b` has Jacobi symbol `1`, with
root `r`, then the product of `(a + r)/2` and `(a - r)/2` is `-(b*b)/4` and exactly one of
the two has Jacobi symbol `1`; and `x.sqrt()` returns true exactly when `N` has Jacobi
symbol `1`, so the second failure branch is not reached. -/
theorem C20_sqrt_iff_norm_residue (p : Nat) [Fact p.Prime] (hp : p % 4 = 3)
    (P : FPPrims (ZMod p)) (hP : P.Lawful) (F : FP2) (s : Store (ZMod p)) (hF : F.live s)
    (hb : s.cell F.b ≠ 0) :
    (P.jacobi (s.cell F.a * s.cell F.a + s.cell F.b * s.cell F.b) = 1 →
      P.div2 (s.cell F.a + P.sqrt (s.cell F.a * s.cell F.a + s.cell F.b * s.cell F.b))
          * P.div2 (s.cell F.a - P.sqrt (s.cell F.a * s.cell F.a + s.cell F.b * s.cell F.b))
          * 4 = -(s.cell F.b * s.cell F.b) ∧
      ((P.jacobi (P.div2 (s.cell F.a
            + P.sqrt (s.cell F.a * s.cell F.a + s.cell F.b * s.cell F.b))) = 1 ∧
          P.jacobi (P.div2 (s.cell F.a
            - P.sqrt (s.cell F.a * s.cell F.a + s.cell F.b * s.cell F.b))) ≠ 1) ∨
        (P.jacobi (P.div2 (s.cell F.a
            + P.sqrt (s.cell F.a * s.cell F.a + s.cell F.b * s.cell F.b))) ≠ 1 ∧
          P.jacobi (P.div2 (s.cell F.a
            - P.sqrt (s.cell F.a * s.cell F.a + s.cell F.b * s.cell F.b))) = 1))) ∧
    ((F.sqrt P s).1 = true ↔
      P.jacobi (s.cell F.a * s.cell F.a + s.cell F.b * s.cell F.b) = 1) := by
  have hm : ¬ IsSquare (-1 : ZMod p) := fun h => (ZMod.exists_sq_eq_neg_one_iff.mp h) hp
  have he := sqrt_eq_sqrtVal P F s hF
  have h1 : (F.sqrt P s).1 = (sqrtVal P (F.val s)).1 := congrArg Prod.fst he
  rw [add_comm (s.cell F.a * s.cell F.a)]
  constructor
  · exact sqrt_candidates P hP hm _ _ hb
  · rw [h1]
    exact sqrtVal_flag_iff P hP hm _ _ hb

/-- Witness of C20 over `p = 23`, `x = 3 + 4i`, whose norm `25 = 2` is a residue. -/
theorem C20_sqrt_iff_norm_residue_witness :
    23 % 4 = 3 ∧ P23.Lawful ∧ FP2.live ⟨0, 1⟩ (store23 [3, 4]) ∧
    (store23 [3, 4]).cell 1 ≠ 0 ∧ P23.jacobi (3 * 3 + 4 * 4) = 1 ∧
    (FP2.sqrt P23 ⟨0, 1⟩ (store23 [3, 4])).1 = true :=
  ⟨by decide, P23_lawful, by decide, by decide, by decide,
    (C20_sqrt_iff_norm_residue 23 (by decide) P23 P23_lawful ⟨0, 1⟩ (store23 [3, 4])
      (by decide) (by decide)).2.mpr (by decide)⟩

end Claims

end Amcl
